import Mathlib

/-!
Shallow embedding of the audio-buffer processing core in
src/audio_processor.cpp, together with theorems settling the claims about
it.  Machine integers (uint16, uint32) are modelled as Nat with explicit
reduction modulo 2^16 / 2^32 at every operation where the C code can wrap.
Float samples are modelled as rationals; every float computation a theorem
below depends on is exact in IEEE-754 single/double precision at the
inputs considered, except where a dedicated double-rounding model (fl53)
is used.  malloc / realloc success is an explicit Boolean oracle
parameter, since the C allocator is outside the program text.
-/

/-- Reduction modulo 2^32, the value of a C uint32_t expression. -/
def u32 (n : Nat) : Nat := n % 4294967296

/-- uint32_t addition (wraps modulo 2^32). -/
def u32add (a b : Nat) : Nat := (a + b) % 4294967296

/-- uint32_t subtraction (wraps modulo 2^32 on underflow), for a b < 2^32. -/
def u32sub (a b : Nat) : Nat := (a + 4294967296 - b % 4294967296) % 4294967296

/-- uint32_t multiplication (wraps modulo 2^32). -/
def u32mul (a b : Nat) : Nat := (a * b) % 4294967296

/-- The global arena `g_memory_buffer` (audio_processor.cpp line 42):
`buffer` is a pointer, modelled only by whether it is null; `size` is the
used byte count; `capacity` the allocated byte count. -/
structure MemoryBuffer where
  bufferNonNull : Bool
  size : Nat
  capacity : Nat
  deriving DecidableEq

/-- The arena invariant stated by the spec: `used ≤ capacity`, and the
storage pointer is null iff `capacity = 0`. -/
def arenaInvariant (m : MemoryBuffer) : Prop :=
  m.size ≤ m.capacity ∧ (m.bufferNonNull = false ↔ m.capacity = 0)

instance (m : MemoryBuffer) : Decidable (arenaInvariant m) := by
  unfold arenaInvariant; infer_instance

/-- wasm_init_memory (lines 50-60): frees any existing storage, then
`buffer = malloc(size)`.  On malloc failure (`allocOk = false`) it returns
0 having set only the pointer; `size` and `capacity` keep their previous
values.  On success it sets `capacity = size`, `size = 0` and returns
`size`. -/
def wasm_init_memory (size : Nat) (allocOk : Bool) (m : MemoryBuffer) :
    Nat × MemoryBuffer :=
  if allocOk then (size, ⟨true, 0, size⟩)
  else (0, ⟨false, m.size, m.capacity⟩)

/-- wasm_cleanup (lines 68-75): frees the storage and zeroes every field. -/
def wasm_cleanup (_m : MemoryBuffer) : MemoryBuffer := ⟨false, 0, 0⟩

/-- wasm_get_buffer_size (lines 416-418). -/
def wasm_get_buffer_size (m : MemoryBuffer) : Nat := m.size

/-- The `if (need > capacity) realloc` pattern shared by every producing
operation (e.g. lines 93-99).  Returns `none` when realloc fails, in which
case the caller returns 0 with the arena untouched; on growth the new
capacity is exactly the requested byte count. -/
def arenaEnsure (need : Nat) (allocOk : Bool) (m : MemoryBuffer) :
    Option MemoryBuffer :=
  if need > m.capacity then
    if allocOk then some ⟨true, m.size, need⟩ else none
  else some m

/-- The AudioBuffer descriptor (lines 27-32).  `data` is the float array
viewed as a total function from linear index to sample value; indices at
and beyond `length * num_channels` are never read by the operations under
their preconditions. -/
structure AudioBuffer where
  data : Nat → ℚ
  length : Nat
  num_channels : Nat
  sample_rate : Nat

/-- wasm_slice_audio (lines 213-242).  The clamp
`slice_length = source->length - start_sample` is uint32 arithmetic and
wraps when `start_sample > source->length`.  The returned data function is
the planar copy `slice_data[ch * slice_length + i] =
source->data[ch * source->length + start_sample + i]`. -/
def wasm_slice_audio (source : AudioBuffer) (start_sample slice_length : Nat)
    (allocOk : Bool) (m : MemoryBuffer) : Nat × MemoryBuffer × (Nat → ℚ) :=
  let sl := if source.length < u32add start_sample slice_length
            then u32sub source.length start_sample else slice_length
  let buffer_size := u32mul (u32mul sl source.num_channels) 4
  match arenaEnsure buffer_size allocOk m with
  | none => (0, m, fun _ => 0)
  | some m1 =>
      (sl, { m1 with size := buffer_size },
       fun idx => source.data ((idx / sl) * source.length + start_sample + idx % sl))

/-- Clamp of a float sample to [-1, 1]: `fmaxf(-1.0f, fminf(1.0f, sample))`
(lines 126 and 133). -/
def clampQ (s : ℚ) : ℚ := max (-1) (min 1 s)

/-- Truncation toward zero, the semantics of a C float-to-integer cast. -/
def ratTrunc (q : ℚ) : ℤ := if q < 0 then -⌊-q⌋ else ⌊q⌋

/-- The 16-bit quantizer of wasm_audio_buffer_to_wav (lines 125-127):
clamp to [-1, 1], then `(int16_t)(sample < 0 ? sample * 0x8000 :
sample * 0x7FFF)`.  Exact in float at every sample: the clamped value
times 0x8000 is a power-of-two scaling, and the endpoint and bound
properties proved below survive the rounding of the 0x7FFF product
because rounding to nearest is monotone and fixes 0 and 32767. -/
def encodeSample16 (s : ℚ) : ℤ :=
  let c := clampQ s
  ratTrunc (if c < 0 then c * 32768 else c * 32767)

/-- The 24-bit quantizer (lines 132-134): clamp, then
`(int32_t)(sample < 0 ? sample * 0x800000 : sample * 0x7FFFFF)`. -/
def encodeSample24 (s : ℚ) : ℤ :=
  let c := clampQ s
  ratTrunc (if c < 0 then c * 8388608 else c * 8388607)

/-- wasm_audio_buffer_to_wav (lines 80-145).  `bytes_per_sample` is
`bits_per_sample / 8`; `block_align` is a uint16 product; `data_size` and
`total_size` are uint32 products and sums.  The returned sample writer
reproduces the encoding loops: 16- and 24-bit samples go through the
quantizers above; for any other bit depth the loop bodies never run and
the payload region is left unwritten (modelled as 0 here), yet the header
is still written, `size` is still set and `total_size` is still returned. -/
def wasm_audio_buffer_to_wav (audio_data : Nat → ℚ)
    (length num_channels sample_rate bits_per_sample : Nat)
    (allocOk : Bool) (m : MemoryBuffer) : Nat × MemoryBuffer × (Nat → ℤ) :=
  let bytes_per_sample := bits_per_sample / 8
  let block_align := (num_channels * bytes_per_sample) % 65536
  let data_size := u32mul length block_align
  let total_size := u32add 44 data_size
  match arenaEnsure total_size allocOk m with
  | none => (0, m, fun _ => 0)
  | some m1 =>
      (total_size, { m1 with size := total_size },
       fun i => if bits_per_sample = 16 then encodeSample16 (audio_data i)
                else if bits_per_sample = 24 then encodeSample24 (audio_data i)
                else 0)

/-- A byte of the input WAV image (uint8_t read). -/
def byteAt (wav : Nat → Nat) (i : Nat) : Nat := wav i % 256

/-- Little-endian uint16 field read from the packed WAVHeader. -/
def readU16 (wav : Nat → Nat) (off : Nat) : Nat :=
  byteAt wav off + 256 * byteAt wav (off + 1)

/-- Little-endian uint32 field read from the packed WAVHeader. -/
def readU32 (wav : Nat → Nat) (off : Nat) : Nat :=
  byteAt wav off + 256 * byteAt wav (off + 1) + 65536 * byteAt wav (off + 2) +
    16777216 * byteAt wav (off + 3)

/-- The three memcmp checks of wasm_wav_to_audio_buffer (lines 160-162):
RIFF at offset 0, WAVE at offset 8, fmt-space at offset 12, byte values in
ASCII. -/
def wavMagicOk (wav : Nat → Nat) : Bool :=
  (byteAt wav 0 == 82) && (byteAt wav 1 == 73) && (byteAt wav 2 == 70) &&
  (byteAt wav 3 == 70) && (byteAt wav 8 == 87) && (byteAt wav 9 == 65) &&
  (byteAt wav 10 == 86) && (byteAt wav 11 == 69) && (byteAt wav 12 == 102) &&
  (byteAt wav 13 == 109) && (byteAt wav 14 == 116) && (byteAt wav 15 == 32)

/-- 16-bit dequantizer (line 194): interpret two bytes as a signed
little-endian int16, divide by 0x8000 if negative else 0x7FFF. -/
def decodeSample16 (lo hi : Nat) : ℚ :=
  let v : ℤ := lo + 256 * hi
  let sv : ℤ := if v < 32768 then v else v - 65536
  if sv < 0 then (sv : ℚ) / 32768 else (sv : ℚ) / 32767

/-- 24-bit dequantizer (lines 199-202): assemble three little-endian
bytes, sign-extending the top byte through the int8_t cast, divide by
0x800000 if negative else 0x7FFFFF. -/
def decodeSample24 (b0 b1 b2 : Nat) : ℚ :=
  let sv : ℤ := b0 + 256 * b1 +
    65536 * (if (b2 : ℤ) < 128 then (b2 : ℤ) else (b2 : ℤ) - 256)
  if sv < 0 then (sv : ℚ) / 8388608 else (sv : ℚ) / 8388607

/-- The decode loops of wasm_wav_to_audio_buffer (lines 191-204).  For a
bit depth other than 16 or 24 neither loop runs and the float payload is
whatever the arena held (modelled as 0). -/
def decodedData (wav : Nat → Nat) (bits : Nat) : Nat → ℚ := fun i =>
  if bits = 16 then
    decodeSample16 (byteAt wav (44 + 2 * i)) (byteAt wav (44 + 2 * i + 1))
  else if bits = 24 then
    decodeSample24 (byteAt wav (44 + 3 * i)) (byteAt wav (44 + 3 * i + 1))
      (byteAt wav (44 + 3 * i + 2))
  else 0

/-- wasm_wav_to_audio_buffer (lines 150-208).  Only the size and the three
magic-byte checks guard the parse; bit depth, channel count and sample
rate are read but never validated.  `num_samples` is
`data_size / (num_channels * bytes_per_sample)` in C uint32 division
(division by zero, reachable when `num_channels * bytes_per_sample = 0`,
is undefined behaviour in C; Lean division returns 0 there, and no theorem
below relies on that case). -/
def wasm_wav_to_audio_buffer (wav : Nat → Nat) (wav_size : Nat) (allocOk : Bool)
    (m : MemoryBuffer) (output : AudioBuffer) : Nat × MemoryBuffer × AudioBuffer :=
  if wav_size < 44 then (0, m, output)
  else if wavMagicOk wav = false then (0, m, output)
  else
    let bits_per_sample := readU16 wav 34
    let num_channels := readU16 wav 22
    let sample_rate := readU32 wav 24
    let bytes_per_sample := bits_per_sample / 8
    let num_samples := readU32 wav 40 / (num_channels * bytes_per_sample)
    let buffer_size := u32mul (u32mul num_samples num_channels) 4
    match arenaEnsure buffer_size allocOk m with
    | none => (0, m, output)
    | some m1 =>
        (num_samples, { m1 with size := buffer_size },
         ⟨decodedData wav bits_per_sample, num_samples, num_channels, sample_rate⟩)

/-- A 44-byte WAV image whose magic bytes are all correct and whose header
declares 1 channel, 44100 Hz, 8 bits per sample and a 4-byte payload. -/
def wavListC1 : List Nat :=
  [82, 73, 70, 70, 36, 0, 0, 0, 87, 65, 86, 69, 102, 109, 116, 32,
   16, 0, 0, 0, 1, 0, 1, 0, 68, 172, 0, 0, 68, 172, 0, 0, 1, 0, 8, 0,
   100, 97, 116, 97, 4, 0, 0, 0]

/-- The byte image of wavListC1 as a memory function. -/
def wavBytesC1 : Nat → Nat := fun i => wavListC1.getD i 0

/-- The output samples of wasm_cross_fade (lines 381-409) at planar index
`idx = c * total + j`: region 1 (`j < b1.length - fade`) copies A, region
2 mixes with `fade_out = i / fade_length` weighting A's tail and
`fade_in = 1 - fade_out` weighting B's head, region 3 copies B from frame
`fade_length` on.  The float quotient `i / fade_length` is modelled
exactly over the rationals. -/
def crossData (b1 b2 : AudioBuffer) (fade total : Nat) : Nat → ℚ := fun idx =>
  let c := idx / total
  let j := idx % total
  let head := u32sub b1.length fade
  if j < head then b1.data (c * b1.length + j)
  else if j < b1.length then
    let i := j - head
    let fade_out : ℚ := (i : ℚ) / (fade : ℚ)
    let fade_in : ℚ := 1 - fade_out
    b1.data (c * b1.length + head + i) * fade_out + b2.data (c * b2.length + i) * fade_in
  else b2.data (c * b2.length + fade + (j - b1.length))

/-- wasm_cross_fade (lines 359-413): output length is
`buffer1.length + buffer2.length - fade_length` in uint32 arithmetic;
channels and sample rate are taken from buffer1 with no compatibility
check against buffer2. -/
def wasm_cross_fade (buffer1 buffer2 : AudioBuffer) (fade_length : Nat)
    (allocOk : Bool) (m : MemoryBuffer) (output : AudioBuffer) :
    Nat × MemoryBuffer × AudioBuffer :=
  let total_length := u32sub (u32add buffer1.length buffer2.length) fade_length
  let num_channels := buffer1.num_channels
  let buffer_size := u32mul (u32mul total_length num_channels) 4
  match arenaEnsure buffer_size allocOk m with
  | none => (0, m, output)
  | some m1 =>
      (total_length, { m1 with size := buffer_size },
       ⟨crossData buffer1 buffer2 fade_length total_length, total_length,
        num_channels, buffer1.sample_rate⟩)

/-- Four mono frames of constant sample 1 at 44100 Hz, the buffer A of the
crossfade scenario. -/
def bufOnes : AudioBuffer := ⟨fun _ => 1, 4, 1, 44100⟩

/-- Four mono frames of constant sample 0 at 44100 Hz, the buffer B of the
crossfade scenario. -/
def bufZeros : AudioBuffer := ⟨fun _ => 0, 4, 1, 44100⟩

/-- An all-zero output descriptor used as the pre-call value of caller
descriptors. -/
def emptyAB : AudioBuffer := ⟨fun _ => 0, 0, 0, 0⟩

/-- The merged planar payload of wasm_merge_audio_buffers (lines 281-290)
at channel c, frame j: walk the buffer list, consuming each buffer's
length, and read channel c of the buffer that j falls into. -/
def mergedAt : List AudioBuffer → Nat → Nat → ℚ
  | [], _, _ => 0
  | b :: rest, c, j =>
      if j < b.length then b.data (c * b.length + j)
      else mergedAt rest c (j - b.length)

/-- The compatibility-checking total-length loop of
wasm_merge_audio_buffers (lines 258-265): every buffer must match the
first buffer's channels and sample rate, else the call fails; lengths
accumulate in uint32. -/
def mergeTotal (ch rate : Nat) : List AudioBuffer → Option Nat
  | [] => some 0
  | b :: rest =>
      if b.num_channels = ch ∧ b.sample_rate = rate then
        (mergeTotal ch rate rest).map (fun t => u32add b.length t)
      else none

/-- wasm_merge_audio_buffers (lines 247-294).  An empty array returns 0
before anything is touched; a format mismatch or failed reallocation also
returns 0 with arena and output unchanged. -/
def wasm_merge_audio_buffers (buffers : List AudioBuffer) (allocOk : Bool)
    (m : MemoryBuffer) (output : AudioBuffer) : Nat × MemoryBuffer × AudioBuffer :=
  match buffers with
  | [] => (0, m, output)
  | b0 :: rest =>
      match mergeTotal b0.num_channels b0.sample_rate (b0 :: rest) with
      | none => (0, m, output)
      | some total_length =>
          let buffer_size := u32mul (u32mul total_length b0.num_channels) 4
          match arenaEnsure buffer_size allocOk m with
          | none => (0, m, output)
          | some m1 =>
              (total_length, { m1 with size := buffer_size },
               ⟨fun idx => mergedAt (b0 :: rest) (idx / total_length) (idx % total_length),
                total_length, b0.num_channels, b0.sample_rate⟩)

/-- Mathematical total frame count of a buffer list. -/
def totalLen (l : List AudioBuffer) : Nat := (l.map (fun b => b.length)).sum

/-- Frames preceding buffer k in the merge output: the sum of the first k
lengths. -/
def offsetBefore (l : List AudioBuffer) (k : Nat) : Nat :=
  ((l.take k).map (fun b => b.length)).sum

/-- Mono buffer with samples [1, 2, 3] at 44100 Hz. -/
def bufM1 : AudioBuffer := ⟨fun i => (i : ℚ) + 1, 3, 1, 44100⟩

/-- Mono buffer with samples [4, 5, 6, 7, 8] at 44100 Hz. -/
def bufM2 : AudioBuffer := ⟨fun i => (i : ℚ) + 4, 5, 1, 44100⟩

/-- A two-channel buffer used to exercise the merge format mismatch. -/
def bufStereo : AudioBuffer := ⟨fun _ => 0, 2, 2, 44100⟩

/-- Fuelled binary logarithm used by the double-precision rounding model
below; 128 units of fuel cover every integer handled here. -/
def log2aux : Nat → Nat → Nat
  | 0, _ => 0
  | fuel + 1, n => if 2 ≤ n then log2aux fuel (n / 2) + 1 else 0

/-- Floor base-2 logarithm of a positive integer below 2^128. -/
def nlog2 (n : Nat) : Nat := log2aux 128 n

/-- Round-to-nearest, ties-to-even integer division: the rounding IEEE-754
applies to an exact nonnegative quotient n/d when fitting it into the
53-bit significand. -/
def rneDiv (n d : Nat) : Nat :=
  let q := n / d
  let r := n % d
  if 2 * r < d then q
  else if d < 2 * r then q + 1
  else if q % 2 = 0 then q else q + 1

/-- The binary exponent of the positive rational a/b: the unique k with
2^k ≤ a/b < 2^(k+1), obtained from the integer logarithms of a and b with
a one-step correction. -/
def qlog2 (a b : Nat) : ℤ :=
  let k0 : ℤ := (nlog2 a : ℤ) - (nlog2 b : ℤ)
  if 0 ≤ k0 then (if a < b * 2 ^ k0.toNat then k0 - 1 else k0)
  else (if a * 2 ^ (-k0).toNat < b then k0 - 1 else k0)

/-- Rounding of an exact rational to the nearest IEEE-754 binary64 value
(round-nearest-even, 53-bit significand, normal range).  This models the
double arithmetic of wasm_resample_audio lines 309-310: every value
arising there lies far inside the normal exponent range, so subnormals and
overflow need no modelling. -/
def fl53 (q : ℚ) : ℚ :=
  if q = 0 then 0
  else
    let a := q.num.natAbs
    let b := q.den
    let k := qlog2 a b
    let mag : ℚ :=
      if k ≤ 52 then
        ((rneDiv (a * 2 ^ (52 - k).toNat) b : ℕ) : ℚ) / (2 : ℚ) ^ (52 - k).toNat
      else
        ((rneDiv a (b * 2 ^ (k - 52).toNat) : ℕ) : ℚ) * (2 : ℚ) ^ (k - 52).toNat
    if q < 0 then -mag else mag

/-- The frame count computed by wasm_resample_audio (lines 309-310):
`ratio = (double)target / source_rate` rounds the exact quotient to a
double, `source_length * ratio` rounds the product to a double, and the
uint32 cast truncates toward zero. -/
def resampleTargetLength (srcLength srcRate target : Nat) : Nat :=
  (⌊fl53 ((srcLength : ℚ) * fl53 ((target : ℚ) / (srcRate : ℚ)))⌋).toNat

/-- The linear-interpolation loop of wasm_resample_audio (lines 326-341)
with the per-sample position arithmetic idealised over the rationals (no
claim depends on the interpolated sample values).  The guard
`src_idx >= source->length - 1` is uint32 and edge-clamps to the last
source frame. -/
def resampleData (source : AudioBuffer) (ratio : ℚ) (target_length : Nat) :
    Nat → ℚ :=
  fun idx =>
    let ch := idx / target_length
    let i := idx % target_length
    let src_pos : ℚ := (i : ℚ) / ratio
    let src_idx : Nat := (⌊src_pos⌋).toNat
    let frac : ℚ := src_pos - (src_idx : ℚ)
    if u32sub source.length 1 ≤ src_idx then
      source.data (ch * source.length + (source.length - 1))
    else
      source.data (ch * source.length + src_idx) * (1 - frac)
        + source.data (ch * source.length + src_idx + 1) * frac

/-- wasm_resample_audio (lines 299-345).  When the target rate equals the
source rate the function returns source->length immediately: the arena and
the caller's output descriptor are not touched (the comment in the code
speaks of copying, but no copy happens). -/
def wasm_resample_audio (source : AudioBuffer) (target_sample_rate : Nat)
    (allocOk : Bool) (m : MemoryBuffer) (output : AudioBuffer) :
    Nat × MemoryBuffer × AudioBuffer :=
  if source.sample_rate = target_sample_rate then (source.length, m, output)
  else
    let target_length :=
      resampleTargetLength source.length source.sample_rate target_sample_rate
    let buffer_size := u32mul (u32mul target_length source.num_channels) 4
    match arenaEnsure buffer_size allocOk m with
    | none => (0, m, output)
    | some m1 =>
        (target_length, { m1 with size := buffer_size },
         ⟨resampleData source
            (fl53 ((target_sample_rate : ℚ) / (source.sample_rate : ℚ)))
            target_length,
          target_length, source.num_channels, target_sample_rate⟩)

/-- Eleven mono frames at a sample rate of 11 Hz: the double-rounding
counterexample source. -/
def srcC8 : AudioBuffer := ⟨fun _ => 0, 11, 1, 11⟩

/-- Two mono frames of constant sample 1 at 44100 Hz. -/
def srcC5 : AudioBuffer := ⟨fun _ => 1, 2, 1, 44100⟩

/-- Claim C9: the arena invariant is claimed to hold initially and to be
preserved by every exported operation, including wasm_init_memory on its
allocation-failure path.  The failure path violates it: after a successful
init to capacity 100, a failing init leaves the buffer pointer null while
capacity stays 100, so the null-iff-zero-capacity invariant is broken. -/
theorem initMemory_failure_breaks_invariant :
    arenaInvariant ⟨false, 0, 0⟩ ∧
    arenaInvariant (wasm_init_memory 100 true ⟨false, 0, 0⟩).2 ∧
    (wasm_init_memory 50 false (wasm_init_memory 100 true ⟨false, 0, 0⟩).2).1 = 0 ∧
    ¬ arenaInvariant
        (wasm_init_memory 50 false (wasm_init_memory 100 true ⟨false, 0, 0⟩).2).2 := by
  refine ⟨by decide, by decide, by decide, ?_⟩
  decide

/-- Claim C2: wasm_slice_audio is claimed to clamp to zero frames and
return 0 when `start_frame ≥ source.length`.  With source length 3 and
start frame 4 the uint32 clamp `source->length - start_sample` underflows
to 4294967295, which the call then returns (given enough memory) instead
of 0. -/
theorem slice_start_past_end_underflows :
    (wasm_slice_audio ⟨fun _ => 0, 3, 1, 44100⟩ 4 0 true ⟨true, 0, 100⟩).1
      = 4294967295 ∧ (4294967295 : Nat) ≠ 0 := by
  constructor
  · decide
  · decide

lemma neg_one_le_clampQ (s : ℚ) : -1 ≤ clampQ s := le_max_left _ _

lemma clampQ_le_one (s : ℚ) : clampQ s ≤ 1 :=
  max_le (by norm_num) (min_le_left _ _)

lemma clampQ_of_one_le {s : ℚ} (h : 1 ≤ s) : clampQ s = 1 := by
  rw [clampQ, min_eq_left h, max_eq_right (by norm_num : (-1:ℚ) ≤ 1)]

lemma clampQ_of_le_neg_one {s : ℚ} (h : s ≤ -1) : clampQ s = -1 := by
  rw [clampQ, min_eq_right (h.trans (by norm_num)), max_eq_left h]

lemma ratTrunc_intCast (z : ℤ) : ratTrunc (z : ℚ) = z := by
  rw [ratTrunc]
  split
  · rw [← Int.cast_neg, Int.floor_intCast]; ring
  · rw [Int.floor_intCast]

lemma ratTrunc_nonpos_range {q : ℚ} {N : ℕ} (h0 : q ≤ 0) (hN : -(N:ℚ) ≤ q) :
    -(N : ℤ) ≤ ratTrunc q ∧ ratTrunc q ≤ 0 := by
  rw [ratTrunc]
  split
  · next hq =>
    have h1 : -q ≤ (N : ℚ) := by linarith
    have h2 : ⌊-q⌋ ≤ (N : ℤ) := by
      calc ⌊-q⌋ ≤ ⌊(N:ℚ)⌋ := Int.floor_mono h1
        _ = N := Int.floor_natCast N
    have h3 : (0:ℤ) ≤ ⌊-q⌋ := Int.le_floor.2 (by push_cast; linarith)
    omega
  · next hq =>
    have hq0 : q = 0 := le_antisymm h0 (not_lt.1 hq)
    subst hq0
    simp

lemma ratTrunc_nonneg_range {q : ℚ} {P : ℕ} (h0 : 0 ≤ q) (hP : q ≤ (P:ℚ)) :
    0 ≤ ratTrunc q ∧ ratTrunc q ≤ P := by
  rw [ratTrunc, if_neg (not_lt.2 h0)]
  refine ⟨Int.le_floor.2 (by exact_mod_cast h0), ?_⟩
  calc ⌊q⌋ ≤ ⌊(P:ℚ)⌋ := Int.floor_mono hP
    _ = P := Int.floor_natCast P

lemma encodeSample16_bounds (s : ℚ) :
    -32768 ≤ encodeSample16 s ∧ encodeSample16 s ≤ 32767 := by
  show -32768 ≤ ratTrunc (if clampQ s < 0 then clampQ s * 32768 else clampQ s * 32767) ∧
    ratTrunc (if clampQ s < 0 then clampQ s * 32768 else clampQ s * 32767) ≤ 32767
  have h1 := neg_one_le_clampQ s
  have h2 := clampQ_le_one s
  split
  · next hc =>
    have hb := ratTrunc_nonpos_range (q := clampQ s * 32768) (N := 32768)
      (by nlinarith) (by push_cast; nlinarith)
    exact ⟨by exact_mod_cast hb.1, hb.2.trans (by norm_num)⟩
  · next hc =>
    have h0 : (0:ℚ) ≤ clampQ s := not_lt.1 hc
    have hb := ratTrunc_nonneg_range (q := clampQ s * 32767) (P := 32767)
      (by positivity) (by push_cast; nlinarith)
    exact ⟨le_trans (by norm_num) hb.1, by exact_mod_cast hb.2⟩

lemma encodeSample24_bounds (s : ℚ) :
    -8388608 ≤ encodeSample24 s ∧ encodeSample24 s ≤ 8388607 := by
  show -8388608 ≤ ratTrunc (if clampQ s < 0 then clampQ s * 8388608 else clampQ s * 8388607) ∧
    ratTrunc (if clampQ s < 0 then clampQ s * 8388608 else clampQ s * 8388607) ≤ 8388607
  have h1 := neg_one_le_clampQ s
  have h2 := clampQ_le_one s
  split
  · next hc =>
    have hb := ratTrunc_nonpos_range (q := clampQ s * 8388608) (N := 8388608)
      (by nlinarith) (by push_cast; nlinarith)
    exact ⟨by exact_mod_cast hb.1, hb.2.trans (by norm_num)⟩
  · next hc =>
    have h0 : (0:ℚ) ≤ clampQ s := not_lt.1 hc
    have hb := ratTrunc_nonneg_range (q := clampQ s * 8388607) (P := 8388607)
      (by positivity) (by push_cast; nlinarith)
    exact ⟨le_trans (by norm_num) hb.1, by exact_mod_cast hb.2⟩

lemma encodeSample16_of_one_le {s : ℚ} (h : 1 ≤ s) : encodeSample16 s = 32767 := by
  show ratTrunc (if clampQ s < 0 then clampQ s * 32768 else clampQ s * 32767) = 32767
  rw [clampQ_of_one_le h, if_neg (by norm_num), one_mul]
  simpa using ratTrunc_intCast 32767

lemma encodeSample16_of_le_neg_one {s : ℚ} (h : s ≤ -1) :
    encodeSample16 s = -32768 := by
  show ratTrunc (if clampQ s < 0 then clampQ s * 32768 else clampQ s * 32767) = -32768
  rw [clampQ_of_le_neg_one h, if_pos (by norm_num)]
  have h2 : ((-1 : ℚ)) * 32768 = ((-32768 : ℤ) : ℚ) := by norm_num
  rw [h2, ratTrunc_intCast]

lemma encodeSample24_of_one_le {s : ℚ} (h : 1 ≤ s) : encodeSample24 s = 8388607 := by
  show ratTrunc (if clampQ s < 0 then clampQ s * 8388608 else clampQ s * 8388607) = 8388607
  rw [clampQ_of_one_le h, if_neg (by norm_num), one_mul]
  simpa using ratTrunc_intCast 8388607

lemma encodeSample24_of_le_neg_one {s : ℚ} (h : s ≤ -1) :
    encodeSample24 s = -8388608 := by
  show ratTrunc (if clampQ s < 0 then clampQ s * 8388608 else clampQ s * 8388607) = -8388608
  rw [clampQ_of_le_neg_one h, if_pos (by norm_num)]
  have h2 : ((-1 : ℚ)) * 8388608 = ((-8388608 : ℤ) : ℚ) := by norm_num
  rw [h2, ratTrunc_intCast]

/-- Claim C6: the encoder clamps every sample to [-1, 1] and quantizes
asymmetrically, so +1 maps to the maximum positive code (0x7FFF at 16 bit,
0x7FFFFF at 24 bit), -1 maps to the minimum code (-0x8000, -0x800000),
values beyond the interval saturate to those codes, and every produced
code lies inside the representable range (no wrap). -/
theorem quantizer_endpoints_and_saturation :
    encodeSample16 1 = 32767 ∧ encodeSample16 (-1) = -32768 ∧
    encodeSample24 1 = 8388607 ∧ encodeSample24 (-1) = -8388608 ∧
    (∀ s : ℚ, 1 ≤ s → encodeSample16 s = 32767 ∧ encodeSample24 s = 8388607) ∧
    (∀ s : ℚ, s ≤ -1 → encodeSample16 s = -32768 ∧ encodeSample24 s = -8388608) ∧
    (∀ s : ℚ, -32768 ≤ encodeSample16 s ∧ encodeSample16 s ≤ 32767 ∧
      -8388608 ≤ encodeSample24 s ∧ encodeSample24 s ≤ 8388607) := by
  refine ⟨encodeSample16_of_one_le le_rfl, encodeSample16_of_le_neg_one le_rfl,
    encodeSample24_of_one_le le_rfl, encodeSample24_of_le_neg_one le_rfl,
    fun s hs => ⟨encodeSample16_of_one_le hs, encodeSample24_of_one_le hs⟩,
    fun s hs => ⟨encodeSample16_of_le_neg_one hs, encodeSample24_of_le_neg_one hs⟩,
    fun s => ?_⟩
  obtain ⟨a, b⟩ := encodeSample16_bounds s
  obtain ⟨c, d⟩ := encodeSample24_bounds s
  exact ⟨a, b, c, d⟩

/-- Witness for C6: the saturation clauses applied at the concrete
out-of-range samples 5/2 and -7/2. -/
theorem quantizer_endpoints_and_saturation_witness :
    encodeSample16 (5/2) = 32767 ∧ encodeSample24 (-7/2) = -8388608 :=
  ⟨(quantizer_endpoints_and_saturation.2.2.2.2.1 (5/2) (by norm_num)).1,
   (quantizer_endpoints_and_saturation.2.2.2.2.2.1 (-7/2) (by norm_num)).2⟩

lemma arenaEnsure_true (n : Nat) (m : MemoryBuffer) :
    arenaEnsure n true m = some (if n > m.capacity then ⟨true, m.size, n⟩ else m) := by
  rw [arenaEnsure]
  split
  · rfl
  · rfl

lemma arenaEnsure_false {n : Nat} {m : MemoryBuffer} (h : n > m.capacity) :
    arenaEnsure n false m = none := by
  rw [arenaEnsure, if_pos h]
  rfl

/-- Claim C1, counterexample: the decoder is claimed to return 0 whenever
bits_per_sample is not 16 or 24 (among other checks).  On a valid-magic
44-byte image declaring 8 bits per sample it returns 4, not 0. -/
theorem wav_decode_accepts_8bit :
    (wasm_wav_to_audio_buffer wavBytesC1 44 true ⟨true, 0, 100⟩
        ⟨fun _ => 0, 0, 0, 0⟩).1 = 4 ∧
    readU16 wavBytesC1 34 = 8 ∧ readU16 wavBytesC1 22 = 1 ∧
    readU32 wavBytesC1 24 = 44100 ∧ (4 : Nat) ≠ 0 := by
  refine ⟨?_, by decide, by decide, by decide, by decide⟩
  decide

/-- Claim C1, amended: wasm_wav_to_audio_buffer returns 0 with all state
unchanged when the buffer is smaller than 44 bytes or a magic check fails;
when both pass, allocation succeeds and the sample divisor
`channels * (bits / 8)` is nonzero (a zero divisor is undefined behaviour
in the C), it returns `data_size / (channels * (bits / 8))` with no
validation of bit depth, channel count or sample rate. -/
theorem wav_decode_header_checks_only :
    ∀ (wav : Nat → Nat) (n : Nat) (aOk : Bool) (m : MemoryBuffer)
      (out : AudioBuffer),
      ((n < 44 ∨ wavMagicOk wav = false) →
        wasm_wav_to_audio_buffer wav n aOk m out = (0, m, out)) ∧
      (44 ≤ n → wavMagicOk wav = true → aOk = true →
        readU16 wav 22 * (readU16 wav 34 / 8) ≠ 0 →
        (wasm_wav_to_audio_buffer wav n aOk m out).1
          = readU32 wav 40 / (readU16 wav 22 * (readU16 wav 34 / 8))) := by
  intro wav n aOk m out
  constructor
  · rintro (h | h)
    · rw [wasm_wav_to_audio_buffer, if_pos h]
    · by_cases hn : n < 44
      · rw [wasm_wav_to_audio_buffer, if_pos hn]
      · rw [wasm_wav_to_audio_buffer, if_neg hn, if_pos h]
  · intro hn hm haOk _hdiv
    subst haOk
    rw [wasm_wav_to_audio_buffer, if_neg (by omega), if_neg (by simp [hm])]
    dsimp only
    rw [arenaEnsure_true]

/-- Witness for the amended C1 theorem: a short buffer is rejected, and
the 8-bit image above parses to its computed frame count. -/
theorem wav_decode_header_checks_only_witness :
    wasm_wav_to_audio_buffer wavBytesC1 10 true ⟨true, 0, 100⟩
        ⟨fun _ => 0, 0, 0, 0⟩ = (0, ⟨true, 0, 100⟩, ⟨fun _ => 0, 0, 0, 0⟩) ∧
    (wasm_wav_to_audio_buffer wavBytesC1 44 true ⟨true, 0, 100⟩
        ⟨fun _ => 0, 0, 0, 0⟩).1
      = readU32 wavBytesC1 40 / (readU16 wavBytesC1 22 * (readU16 wavBytesC1 34 / 8)) :=
  ⟨(wav_decode_header_checks_only wavBytesC1 10 true ⟨true, 0, 100⟩
      ⟨fun _ => 0, 0, 0, 0⟩).1 (Or.inl (by norm_num)),
   (wav_decode_header_checks_only wavBytesC1 44 true ⟨true, 0, 100⟩
      ⟨fun _ => 0, 0, 0, 0⟩).2 (by norm_num) (by decide) rfl (by decide)⟩

/-- Claim C3, counterexample: the encoder is claimed to return 0 when
bits_per_sample is neither 16 nor 24.  With 8 bits per sample, one frame
and one channel it returns 45 (= 44 + 1·1·1), not 0: no bit-depth check
exists on the encode path. -/
theorem wav_encode_bits8_returns_total :
    (wasm_audio_buffer_to_wav (fun _ => 0) 1 1 44100 8 true ⟨true, 0, 100⟩).1 = 45 ∧
    (45 : Nat) ≠ 0 := by
  refine ⟨?_, by decide⟩
  decide

/-- Claim C3, amended: for every bit depth (not just 16 and 24) the
encoder returns `44 + length · channels · (bits/8)` and records that many
used bytes in the arena, encoding the payload only for 16 and 24 bits;
it returns 0 with the arena untouched exactly when the reallocation
fails. -/
theorem wav_encode_total_bytes :
    ∀ (audio : Nat → ℚ) (L C R B : Nat) (m : MemoryBuffer),
      C * (B / 8) < 65536 → 44 + L * (C * (B / 8)) < 4294967296 →
      ((wasm_audio_buffer_to_wav audio L C R B true m).1
          = 44 + L * (C * (B / 8)) ∧
        (wasm_audio_buffer_to_wav audio L C R B true m).2.1.size
          = 44 + L * (C * (B / 8))) ∧
      (44 + L * (C * (B / 8)) > m.capacity →
        (wasm_audio_buffer_to_wav audio L C R B false m).1 = 0 ∧
        (wasm_audio_buffer_to_wav audio L C R B false m).2.1 = m) := by
  intro audio L C R B m h1 h2
  have hmod : (C * (B / 8)) % 65536 = C * (B / 8) := Nat.mod_eq_of_lt h1
  have hmul : L * (C * (B / 8)) % 4294967296 = L * (C * (B / 8)) :=
    Nat.mod_eq_of_lt (by omega)
  have htot : u32add 44 (u32mul L ((C * (B / 8)) % 65536)) = 44 + L * (C * (B / 8)) := by
    rw [hmod, u32mul, u32add, hmul, Nat.mod_eq_of_lt h2]
  constructor
  · dsimp only [wasm_audio_buffer_to_wav]
    rw [arenaEnsure_true]
    dsimp only
    exact ⟨htot, htot⟩
  · intro hcap
    dsimp only [wasm_audio_buffer_to_wav]
    rw [arenaEnsure_false (by rw [htot]; exact hcap)]
    exact ⟨rfl, rfl⟩

/-- Witness for the amended C3 theorem: two 16-bit mono frames encode to
48 bytes when memory suffices, and the call fails with 0 when the
4-byte-grow request is denied. -/
theorem wav_encode_total_bytes_witness :
    (wasm_audio_buffer_to_wav (fun _ => 0) 2 1 8000 16 true ⟨true, 0, 100⟩).1 = 48 ∧
    (wasm_audio_buffer_to_wav (fun _ => 0) 2 1 8000 16 false ⟨false, 0, 0⟩).1 = 0 := by
  constructor
  · have h := (wav_encode_total_bytes (fun _ => 0) 2 1 8000 16 ⟨true, 0, 100⟩
      (by norm_num) (by norm_num)).1.1
    simpa using h
  · exact ((wav_encode_total_bytes (fun _ => 0) 2 1 8000 16 ⟨false, 0, 0⟩
      (by norm_num) (by norm_num)).2 (by norm_num)).1

/-- Claim C4, counterexample: the claim lists the crossfade output of
A = four ones, B = four zeros, fade 2 as [1, 1, 0, 1, 0, 0], but at index
3 the code computes fade_out = 1/2, giving 1·(1/2) + 0·(1/2) = 1/2, not
1. -/
theorem cross_fade_mid_sample_is_half :
    (wasm_cross_fade bufOnes bufZeros 2 true ⟨true, 0, 100⟩ emptyAB).2.2.data 3
        = 1 / 2 ∧
    ¬ ((wasm_cross_fade bufOnes bufZeros 2 true ⟨true, 0, 100⟩ emptyAB).2.2.data 3
        = 1) := by
  have h : (wasm_cross_fade bufOnes bufZeros 2 true ⟨true, 0, 100⟩ emptyAB).2.2.data 3
      = 1 / 2 := by
    show crossData bufOnes bufZeros 2 6 3 = 1 / 2
    norm_num [crossData, u32sub, bufOnes, bufZeros]
  exact ⟨h, by rw [h]; norm_num⟩

/-- Claim C4, amended: crossfading A = [1,1,1,1] with B = [0,0,0,0] at
fade_length 2 returns 6 frames whose samples are [1, 1, 0, 1/2, 0, 0];
the mixed region follows fade_out = i/fade_length applied to A's tail and
fade_in = 1 - fade_out applied to B's head, which at i = 1 yields 1/2. -/
theorem cross_fade_example :
    (wasm_cross_fade bufOnes bufZeros 2 true ⟨true, 0, 100⟩ emptyAB).1 = 6 ∧
    (wasm_cross_fade bufOnes bufZeros 2 true ⟨true, 0, 100⟩ emptyAB).2.2.data 0 = 1 ∧
    (wasm_cross_fade bufOnes bufZeros 2 true ⟨true, 0, 100⟩ emptyAB).2.2.data 1 = 1 ∧
    (wasm_cross_fade bufOnes bufZeros 2 true ⟨true, 0, 100⟩ emptyAB).2.2.data 2 = 0 ∧
    (wasm_cross_fade bufOnes bufZeros 2 true ⟨true, 0, 100⟩ emptyAB).2.2.data 3 = 1/2 ∧
    (wasm_cross_fade bufOnes bufZeros 2 true ⟨true, 0, 100⟩ emptyAB).2.2.data 4 = 0 ∧
    (wasm_cross_fade bufOnes bufZeros 2 true ⟨true, 0, 100⟩ emptyAB).2.2.data 5 = 0 := by
  refine ⟨by decide, ?_, ?_, ?_, ?_, ?_, ?_⟩
  · show crossData bufOnes bufZeros 2 6 0 = 1
    norm_num [crossData, u32sub, bufOnes, bufZeros]
  · show crossData bufOnes bufZeros 2 6 1 = 1
    norm_num [crossData, u32sub, bufOnes, bufZeros]
  · show crossData bufOnes bufZeros 2 6 2 = 0
    norm_num [crossData, u32sub, bufOnes, bufZeros]
  · show crossData bufOnes bufZeros 2 6 3 = 1/2
    norm_num [crossData, u32sub, bufOnes, bufZeros]
  · show crossData bufOnes bufZeros 2 6 4 = 0
    norm_num [crossData, u32sub, bufOnes, bufZeros]
  · show crossData bufOnes bufZeros 2 6 5 = 0
    norm_num [crossData, u32sub, bufOnes, bufZeros]

lemma mergeTotal_eq_of_compat (ch rate : Nat) (l : List AudioBuffer)
    (hc : ∀ b ∈ l, b.num_channels = ch ∧ b.sample_rate = rate) :
    mergeTotal ch rate l = some (totalLen l % 4294967296) := by
  induction l with
  | nil => simp [mergeTotal, totalLen]
  | cons b rest ih =>
      have hb := hc b (by simp)
      rw [mergeTotal, if_pos hb, ih (fun x hx => hc x (List.mem_cons_of_mem b hx))]
      show some (u32add b.length (totalLen rest % 4294967296))
          = some (totalLen (b :: rest) % 4294967296)
      have harith : u32add b.length (totalLen rest % 4294967296)
          = totalLen (b :: rest) % 4294967296 := by
        simp only [u32add, totalLen, List.map_cons, List.sum_cons]
        omega
      rw [harith]

lemma mergeTotal_none_of_mismatch (ch rate : Nat) (l : List AudioBuffer)
    (hx : ∃ b ∈ l, b.num_channels ≠ ch ∨ b.sample_rate ≠ rate) :
    mergeTotal ch rate l = none := by
  induction l with
  | nil => simp at hx
  | cons b rest ih =>
      obtain ⟨x, hxmem, hxne⟩ := hx
      rw [mergeTotal]
      by_cases hb : b.num_channels = ch ∧ b.sample_rate = rate
      · rw [if_pos hb]
        rcases List.mem_cons.1 hxmem with rfl | hm
        · rcases hxne with h | h
          · exact absurd hb.1 h
          · exact absurd hb.2 h
        · rw [ih ⟨x, hm, hxne⟩]
          rfl
      · rw [if_neg hb]

lemma offsetBefore_cons_succ (b : AudioBuffer) (rest : List AudioBuffer) (k : Nat) :
    offsetBefore (b :: rest) (k + 1) = b.length + offsetBefore rest k := by
  simp [offsetBefore, List.take_succ_cons]

lemma mergedAt_eq (l : List AudioBuffer) :
    ∀ (k : Nat) (hk : k < l.length) (c t : Nat),
      t < (l.get ⟨k, hk⟩).length →
      mergedAt l c (offsetBefore l k + t)
        = (l.get ⟨k, hk⟩).data (c * (l.get ⟨k, hk⟩).length + t) := by
  induction l with
  | nil => intro k hk; simp at hk
  | cons b rest ih =>
      intro k hk c t ht
      cases k with
      | zero =>
          show mergedAt (b :: rest) c (offsetBefore (b :: rest) 0 + t) = _
          have h0 : offsetBefore (b :: rest) 0 = 0 := by simp [offsetBefore]
          have ht0 : t < b.length := ht
          rw [h0, Nat.zero_add, mergedAt, if_pos ht0]
          rfl
      | succ k =>
          have hk2 : k < rest.length := by simpa using hk
          have ht2 : t < (rest.get ⟨k, hk2⟩).length := by simpa using ht
          rw [offsetBefore_cons_succ, mergedAt]
          rw [if_neg (by omega)]
          have harith : b.length + offsetBefore rest k + t - b.length
              = offsetBefore rest k + t := by omega
          rw [Nat.add_assoc, Nat.add_sub_cancel_left]
          exact ih k hk2 c t ht2

lemma offsetBefore_add_lt (l : List AudioBuffer) :
    ∀ (k : Nat) (hk : k < l.length) (t : Nat),
      t < (l.get ⟨k, hk⟩).length → offsetBefore l k + t < totalLen l := by
  induction l with
  | nil => intro k hk; simp at hk
  | cons b rest ih =>
      intro k hk t ht
      cases k with
      | zero =>
          have h0 : offsetBefore (b :: rest) 0 = 0 := by simp [offsetBefore]
          have : totalLen (b :: rest) = b.length + totalLen rest := by
            simp [totalLen]
          simp only [List.get] at ht
          omega
      | succ k =>
          have hk2 : k < rest.length := by simpa using hk
          have ht2 : t < (rest.get ⟨k, hk2⟩).length := by simpa using ht
          have := ih k hk2 t ht2
          have htl : totalLen (b :: rest) = b.length + totalLen rest := by
            simp [totalLen]
          rw [offsetBefore_cons_succ]
          omega

/-- Claim C7: for a nonempty descriptor array sharing channels and sample
rate, merge returns the sum of the lengths and channel c of the output is
the concatenation of channel c across the inputs (buffer k occupying
output indices c·L + offset_k ... c·L + offset_k + length_k with L the
total length); any channel or sample-rate mismatch returns 0 with all
state unchanged. -/
theorem merge_concatenates :
    (∀ (b0 : AudioBuffer) (rest : List AudioBuffer) (m : MemoryBuffer)
       (out : AudioBuffer),
      (∀ b ∈ b0 :: rest, b.num_channels = b0.num_channels ∧
        b.sample_rate = b0.sample_rate) →
      totalLen (b0 :: rest) < 4294967296 →
      ((wasm_merge_audio_buffers (b0 :: rest) true m out).1
          = totalLen (b0 :: rest) ∧
       ∀ (k : Nat) (hk : k < (b0 :: rest).length) (c t : Nat),
         c < b0.num_channels → t < ((b0 :: rest).get ⟨k, hk⟩).length →
         (wasm_merge_audio_buffers (b0 :: rest) true m out).2.2.data
             (c * totalLen (b0 :: rest) + (offsetBefore (b0 :: rest) k + t))
           = ((b0 :: rest).get ⟨k, hk⟩).data
               (c * ((b0 :: rest).get ⟨k, hk⟩).length + t))) ∧
    (∀ (b0 : AudioBuffer) (rest : List AudioBuffer) (aOk : Bool)
       (m : MemoryBuffer) (out : AudioBuffer),
      (∃ b ∈ b0 :: rest, b.num_channels ≠ b0.num_channels ∨
        b.sample_rate ≠ b0.sample_rate) →
      wasm_merge_audio_buffers (b0 :: rest) aOk m out = (0, m, out)) := by
  constructor
  · intro b0 rest m out hc hlt
    have htot : mergeTotal b0.num_channels b0.sample_rate (b0 :: rest)
        = some (totalLen (b0 :: rest)) := by
      rw [mergeTotal_eq_of_compat _ _ _ hc, Nat.mod_eq_of_lt hlt]
    constructor
    · show (match mergeTotal b0.num_channels b0.sample_rate (b0 :: rest) with
        | none => (0, m, out)
        | some total_length =>
            match arenaEnsure (u32mul (u32mul total_length b0.num_channels) 4) true m with
            | none => (0, m, out)
            | some m1 =>
                (total_length, { m1 with size := u32mul (u32mul total_length b0.num_channels) 4 },
                 ⟨fun idx => mergedAt (b0 :: rest) (idx / total_length) (idx % total_length),
                  total_length, b0.num_channels, b0.sample_rate⟩)).1 = totalLen (b0 :: rest)
      rw [htot]
      dsimp only
      rw [arenaEnsure_true]
    · intro k hk c t hcch ht
      have hdata : (wasm_merge_audio_buffers (b0 :: rest) true m out).2.2.data
          = fun idx => mergedAt (b0 :: rest) (idx / totalLen (b0 :: rest))
              (idx % totalLen (b0 :: rest)) := by
        show (match mergeTotal b0.num_channels b0.sample_rate (b0 :: rest) with
          | none => (0, m, out)
          | some total_length =>
              match arenaEnsure (u32mul (u32mul total_length b0.num_channels) 4) true m with
              | none => (0, m, out)
              | some m1 =>
                  (total_length, { m1 with size := u32mul (u32mul total_length b0.num_channels) 4 },
                   ⟨fun idx => mergedAt (b0 :: rest) (idx / total_length) (idx % total_length),
                    total_length, b0.num_channels, b0.sample_rate⟩)).2.2.data = _
        rw [htot]
        dsimp only
        rw [arenaEnsure_true]
      rw [hdata]
      have hj : offsetBefore (b0 :: rest) k + t < totalLen (b0 :: rest) :=
        offsetBefore_add_lt _ k hk t ht
      have hL : 0 < totalLen (b0 :: rest) := by omega
      have hdiv : (c * totalLen (b0 :: rest) + (offsetBefore (b0 :: rest) k + t))
          / totalLen (b0 :: rest) = c := by
        rw [Nat.add_comm, Nat.mul_comm, Nat.add_mul_div_left _ _ hL,
          Nat.div_eq_of_lt hj, Nat.zero_add]
      have hmod : (c * totalLen (b0 :: rest) + (offsetBefore (b0 :: rest) k + t))
          % totalLen (b0 :: rest) = offsetBefore (b0 :: rest) k + t := by
        rw [Nat.add_comm, Nat.mul_comm, Nat.add_mul_mod_self_left,
          Nat.mod_eq_of_lt hj]
      show mergedAt (b0 :: rest) _ _ = _
      rw [hdiv, hmod]
      exact mergedAt_eq _ k hk c t ht
  · intro b0 rest aOk m out hx
    show (match mergeTotal b0.num_channels b0.sample_rate (b0 :: rest) with
      | none => (0, m, out)
      | some total_length =>
          match arenaEnsure (u32mul (u32mul total_length b0.num_channels) 4) aOk m with
          | none => (0, m, out)
          | some m1 =>
              (total_length, { m1 with size := u32mul (u32mul total_length b0.num_channels) 4 },
               ⟨fun idx => mergedAt (b0 :: rest) (idx / total_length) (idx % total_length),
                total_length, b0.num_channels, b0.sample_rate⟩)) = (0, m, out)
    rw [mergeTotal_none_of_mismatch _ _ _ hx]

/-- Claim C10: merging zero buffers returns 0 and leaves the arena state
and the caller's output descriptor completely unchanged. -/
theorem merge_empty_is_noop :
    ∀ (aOk : Bool) (m : MemoryBuffer) (out : AudioBuffer),
      wasm_merge_audio_buffers [] aOk m out = (0, m, out) :=
  fun _ _ _ => rfl

/-- Witness for C7: merging [1,2,3] with [4,5,6,7,8] returns 8 frames,
the sample at offset 3 + 2 of channel 0 comes from the second buffer, and
merging a mono with a stereo buffer fails with 0. -/
theorem merge_concatenates_witness :
    (wasm_merge_audio_buffers [bufM1, bufM2] true ⟨true, 0, 100⟩
        ⟨fun _ => 0, 0, 0, 0⟩).1 = totalLen [bufM1, bufM2] ∧
    (wasm_merge_audio_buffers [bufM1, bufM2] true ⟨true, 0, 100⟩
        ⟨fun _ => 0, 0, 0, 0⟩).2.2.data
        (0 * totalLen [bufM1, bufM2] + (offsetBefore [bufM1, bufM2] 1 + 2))
      = ([bufM1, bufM2].get ⟨1, by norm_num⟩).data
          (0 * ([bufM1, bufM2].get ⟨1, by norm_num⟩).length + 2) ∧
    wasm_merge_audio_buffers [bufM1, bufStereo] true ⟨true, 0, 100⟩
        ⟨fun _ => 0, 0, 0, 0⟩
      = (0, ⟨true, 0, 100⟩, ⟨fun _ => 0, 0, 0, 0⟩) := by
  have hc : ∀ b ∈ [bufM1, bufM2], b.num_channels = bufM1.num_channels ∧
      b.sample_rate = bufM1.sample_rate := by
    intro b hb
    rcases List.mem_cons.1 hb with rfl | hb
    · exact ⟨rfl, rfl⟩
    · rcases List.mem_cons.1 hb with rfl | hb
      · exact ⟨rfl, rfl⟩
      · simp at hb
  have hpos := merge_concatenates.1 bufM1 [bufM2] ⟨true, 0, 100⟩
    ⟨fun _ => 0, 0, 0, 0⟩ hc (by decide)
  refine ⟨hpos.1, hpos.2 1 (by norm_num) 0 2 (by decide) (by decide), ?_⟩
  exact merge_concatenates.2 bufM1 [bufStereo] true ⟨true, 0, 100⟩
    ⟨fun _ => 0, 0, 0, 0⟩ ⟨bufStereo, by simp, Or.inl (by decide)⟩

lemma log2aux_spec :
    ∀ (fuel n : Nat), 1 ≤ n → n < 2 ^ fuel →
      2 ^ log2aux fuel n ≤ n ∧ n < 2 ^ (log2aux fuel n + 1) := by
  intro fuel
  induction fuel with
  | zero => intro n h1 h2; omega
  | succ fuel ih =>
      intro n h1 h2
      rw [log2aux]
      by_cases h : 2 ≤ n
      · rw [if_pos h]
        have hm1 : 1 ≤ n / 2 := by omega
        have hm2 : n / 2 < 2 ^ fuel := by
          rw [pow_succ] at h2
          omega
        obtain ⟨ha, hb⟩ := ih (n / 2) hm1 hm2
        have hpow : (2:ℕ) ^ (log2aux fuel (n / 2) + 1)
            = 2 ^ log2aux fuel (n / 2) * 2 := pow_succ 2 _
        have hpow2 : (2:ℕ) ^ (log2aux fuel (n / 2) + 1 + 1)
            = 2 ^ (log2aux fuel (n / 2) + 1) * 2 := pow_succ 2 _
        constructor
        · omega
        · omega
      · rw [if_neg h]
        have hn1 : n = 1 := by omega
        subst hn1
        norm_num

lemma nlog2_spec (n : Nat) (h1 : 1 ≤ n) (h2 : n < 2 ^ 128) :
    2 ^ nlog2 n ≤ n ∧ n < 2 ^ (nlog2 n + 1) :=
  log2aux_spec 128 n h1 h2

lemma rneDiv_one (n : Nat) : rneDiv n 1 = n := by
  rw [rneDiv]
  simp [Nat.mod_one, Nat.div_one]

lemma nlog2_one : nlog2 1 = 0 := by decide

lemma qlog2_natCast (n : Nat) (h1 : 1 ≤ n) (h2 : n < 2 ^ 128) :
    qlog2 n 1 = (nlog2 n : ℤ) := by
  have hspec := nlog2_spec n h1 h2
  rw [qlog2]
  simp only [nlog2_one, Nat.cast_zero, sub_zero]
  rw [if_pos (by positivity)]
  rw [Int.toNat_natCast]
  rw [if_neg (by omega)]

lemma fl53_natCast (n : Nat) (h : n < 2 ^ 53) : fl53 (n : ℚ) = n := by
  rcases Nat.eq_zero_or_pos n with rfl | hp
  · simp [fl53]
  · have hne : (n : ℚ) ≠ 0 := by exact_mod_cast hp.ne'
    rw [fl53, if_neg hne]
    dsimp only
    have hnum : ((n : ℚ)).num.natAbs = n := by
      rw [Rat.num_natCast]
      simp
    have hden : ((n : ℚ)).den = 1 := Rat.den_natCast n
    rw [hnum, hden]
    have h128 : n < 2 ^ 128 :=
      lt_of_lt_of_le h (Nat.pow_le_pow_right (by norm_num) (by norm_num))
    rw [qlog2_natCast n hp h128]
    have hspec := nlog2_spec n hp h128
    have hle52 : nlog2 n ≤ 52 := by
      by_contra hgt
      push_neg at hgt
      have hmono : (2:ℕ) ^ 53 ≤ 2 ^ nlog2 n := Nat.pow_le_pow_right (by norm_num) (by omega)
      omega
    rw [if_neg (not_lt.2 (by positivity : (0:ℚ) ≤ (n:ℚ)))]
    rw [if_pos (show ((nlog2 n : ℕ) : ℤ) ≤ 52 by exact_mod_cast hle52)]
    have htn : ((52 : ℤ) - ((nlog2 n : ℕ) : ℤ)).toNat = 52 - nlog2 n := by omega
    rw [htn, rneDiv_one]
    push_cast
    rw [mul_div_assoc, div_self (by positivity : ((2:ℚ)) ^ (52 - nlog2 n) ≠ 0), mul_one]

lemma num_den_of_div (a b : ℕ) (hb : 0 < b) (hco : Nat.Coprime a b) :
    ((a : ℚ) / (b : ℚ)).num = a ∧ ((a : ℚ) / (b : ℚ)).den = b := by
  have hcast : ((a : ℚ) / (b : ℚ)) = (((a : ℤ) : ℚ) / ((b : ℤ) : ℚ)) := by
    push_cast
    rfl
  have h1 : (((a : ℤ) : ℚ) / ((b : ℤ) : ℚ)).num = (a : ℤ) :=
    Rat.num_div_eq_of_coprime (by exact_mod_cast hb) (by simpa using hco)
  have h2 : ((((a : ℤ) : ℚ) / ((b : ℤ) : ℚ)).den : ℤ) = (b : ℤ) :=
    Rat.den_div_eq_of_coprime (by exact_mod_cast hb) (by simpa using hco)
  rw [hcast]
  exact ⟨h1, by exact_mod_cast h2⟩

lemma fl53_pos_eq (q : ℚ) (a b : ℕ) (k : ℤ) (mant : ℕ)
    (hq : 0 < q) (hnum : q.num.natAbs = a) (hden : q.den = b)
    (hk : qlog2 a b = k) (hk52 : k ≤ 52)
    (hm : rneDiv (a * 2 ^ ((52 : ℤ) - k).toNat) b = mant) :
    fl53 q = (mant : ℚ) / (2 : ℚ) ^ ((52 : ℤ) - k).toNat := by
  rw [fl53, if_neg hq.ne']
  dsimp only
  rw [hnum, hden, hk, if_neg (not_lt.2 hq.le), if_pos hk52, hm]

lemma fl53_ratio_15_11 :
    fl53 ((15 : ℚ) / 11) = (6141272219141585 : ℚ) / 4503599627370496 := by
  obtain ⟨hn, hd⟩ := num_den_of_div 15 11 (by norm_num) (by norm_num)
  have h := fl53_pos_eq ((15 : ℚ) / 11) 15 11 0 6141272219141585
    (by norm_num)
    (by rw [show ((15 : ℚ) / 11).num = ((15 : ℕ) : ℤ) by exact_mod_cast hn]; simp)
    (by exact_mod_cast hd)
    (by decide) (by decide) (by decide)
  rw [h]
  norm_num [show Int.toNat 52 = 52 from rfl]

lemma fl53_product_11 :
    fl53 ((11 : ℚ) * ((6141272219141585 : ℚ) / 4503599627370496))
      = (8444249301319679 : ℚ) / 562949953421312 := by
  have hq2 : (11 : ℚ) * ((6141272219141585 : ℚ) / 4503599627370496)
      = (67553994410557435 : ℚ) / 4503599627370496 := by norm_num
  obtain ⟨hn, hd⟩ := num_den_of_div 67553994410557435 4503599627370496
    (by norm_num) (by norm_num)
  have h := fl53_pos_eq ((67553994410557435 : ℚ) / 4503599627370496)
    67553994410557435 4503599627370496 3 8444249301319679
    (by norm_num)
    (by rw [show ((67553994410557435 : ℚ) / 4503599627370496).num
          = ((67553994410557435 : ℕ) : ℤ) by exact_mod_cast hn]; simp)
    (by exact_mod_cast hd)
    (by decide) (by decide) (by decide)
  rw [hq2, h]
  norm_num [show Int.toNat 49 = 49 from rfl]

lemma resampleTargetLength_11_11_15 : resampleTargetLength 11 11 15 = 14 := by
  rw [resampleTargetLength]
  have hc : (((15 : ℕ) : ℚ) / ((11 : ℕ) : ℚ)) = (15 : ℚ) / 11 := by norm_num
  have hc2 : (((11 : ℕ) : ℚ)) = (11 : ℚ) := by norm_num
  rw [hc, hc2, fl53_ratio_15_11, fl53_product_11]
  have hfloor : ⌊(8444249301319679 : ℚ) / 562949953421312⌋ = 14 := by
    rw [Int.floor_eq_iff]
    constructor
    · norm_num
    · norm_num
  rw [hfloor]
  rfl

/-- Claim C8, counterexample: the claim says the frame count is the floor
of the exact rational length·target/source.  Resampling 11 frames from
11 Hz to 15 Hz returns 14, while the exact floor is 11·15/11 = 15: the
double rounding of 15/11 (down) and of the product (down, to just below
15) loses one frame. -/
theorem resample_length_double_rounding :
    (wasm_resample_audio srcC8 15 true ⟨true, 0, 100⟩ emptyAB).1 = 14 ∧
    srcC8.length * 15 / srcC8.sample_rate = 15 ∧ (14 : Nat) ≠ 15 := by
  refine ⟨?_, by decide, by decide⟩
  rw [wasm_resample_audio, if_neg (by decide)]
  dsimp only
  rw [show resampleTargetLength srcC8.length srcC8.sample_rate 15 = 14
    from resampleTargetLength_11_11_15]
  rw [arenaEnsure_true]

/-- Claim C8, amended: the count is the floor of length·ratio computed in
IEEE-754 double precision, which can fall below the exact rational floor;
when the computation is exact — in particular whenever the source rate
divides the target rate and the result fits in uint32 — it equals the
exact floor(length · target / source). -/
theorem resample_length_exact_when_divisible :
    ∀ (dataf : Nat → ℚ) (L ch s d : Nat) (m : MemoryBuffer) (out : AudioBuffer),
      0 < s → 2 ≤ d → L * d < 4294967296 → d * s < 4294967296 →
      (wasm_resample_audio ⟨dataf, L, ch, s⟩ (d * s) true m out).1
        = L * (d * s) / s := by
  intro dataf L ch s d m out hs hd hld hds
  have hne : ¬ (s = d * s) := by nlinarith
  have hT : resampleTargetLength L s (d * s) = L * d := by
    rw [resampleTargetLength]
    have hs0 : ((s : ℚ)) ≠ 0 := by exact_mod_cast hs.ne'
    have hratio : (((d * s : ℕ)) : ℚ) / ((s : ℕ) : ℚ) = ((d : ℕ) : ℚ) := by
      push_cast
      field_simp
    have hd53 : d < 2 ^ 53 := by
      have : d ≤ d * s := Nat.le_mul_of_pos_right d hs
      omega
    have hld53 : L * d < 2 ^ 53 := by omega
    rw [hratio, fl53_natCast d hd53, ← Nat.cast_mul, fl53_natCast (L * d) hld53,
      Int.floor_natCast, Int.toNat_natCast]
  show (wasm_resample_audio ⟨dataf, L, ch, s⟩ (d * s) true m out).1 = L * (d * s) / s
  rw [wasm_resample_audio, if_neg hne]
  dsimp only
  rw [show resampleTargetLength L s (d * s) = L * d from hT, arenaEnsure_true]
  dsimp only
  rw [show L * (d * s) / s = L * d from by
    rw [← Nat.mul_assoc, Nat.mul_div_cancel _ hs]]

/-- Witness for the amended C8 theorem: 4 frames resampled from 1000 Hz to
2000 Hz give 8 = floor(4·2000/1000) frames. -/
theorem resample_length_exact_when_divisible_witness :
    (wasm_resample_audio ⟨fun _ => 0, 4, 1, 1000⟩ 2000 true ⟨true, 0, 100⟩
        emptyAB).1 = 4 * 2000 / 1000 :=
  resample_length_exact_when_divisible (fun _ => 0) 4 1 1000 2 ⟨true, 0, 100⟩
    emptyAB (by norm_num) (by norm_num) (by norm_num) (by norm_num)

/-- Claim C5, counterexample: the claim says that at equal rates the
output equals the input.  The call returns source.length but the caller's
output descriptor is returned untouched: its length stays 0 while the
source has 2 frames, so no output equal to the input is produced. -/
theorem resample_equal_rate_skips_output :
    (wasm_resample_audio srcC5 44100 true ⟨true, 0, 100⟩ emptyAB).1 = srcC5.length ∧
    (wasm_resample_audio srcC5 44100 true ⟨true, 0, 100⟩ emptyAB).2.2 = emptyAB ∧
    emptyAB.length ≠ srcC5.length := by
  refine ⟨rfl, rfl, by decide⟩

/-- Claim C5, amended: when target_sample_rate equals source.sample_rate,
resample_audio returns source.length immediately and leaves the arena and
the caller's output descriptor completely unchanged (the caller is
expected to short-circuit and reuse the source buffer). -/
theorem resample_equal_rate_short_circuit :
    ∀ (source : AudioBuffer) (target : Nat) (aOk : Bool) (m : MemoryBuffer)
      (out : AudioBuffer),
      source.sample_rate = target →
      wasm_resample_audio source target aOk m out = (source.length, m, out) := by
  intro source target aOk m out h
  rw [wasm_resample_audio, if_pos h]

/-- Witness for the amended C5 theorem at a concrete source and arena. -/
theorem resample_equal_rate_short_circuit_witness :
    wasm_resample_audio srcC5 44100 true ⟨true, 0, 100⟩ emptyAB
      = (srcC5.length, ⟨true, 0, 100⟩, emptyAB) :=
  resample_equal_rate_short_circuit srcC5 44100 true ⟨true, 0, 100⟩ emptyAB rfl
